import Mathlib

/-!
Verification of the OOXML patch writer of `app_masterfile.py`
(Masterfile-Automation-Amazon).

The Python source is shallowly embedded: pure helper functions become Lean
functions over `List Char` / `String` / `Int` / `Nat`; the XML trees that
`xml.etree.ElementTree` produces are modelled by small structures holding
exactly the attributes and children the patcher reads or writes; the zip
archive is modelled as an association list from member name to part content.
Machine integers do not occur (Python integers are unbounded, like `Int`).
-/

namespace Masterfile

/- ──────────────────────────────────────────────────────────────────────
   Header normalizer `norm` (app_masterfile.py lines 405-413).

   Python:
     def norm(s):
         if s is None: return ""
         x = str(s).strip().lower()
         x = re.sub(r"\s*-\s*en\s*[-_ ]\s*us\s*$", "", x)
         x = x.replace("–","-").replace("—","-").replace("−","-")
         x = re.sub(r"[._/\\-]+", " ", x)
         x = re.sub(r"[^0-9a-z\s]+", " ", x)
         return re.sub(r"\s+", " ", x).strip()
   ────────────────────────────────────────────────────────────────────── -/

/-- The character class that Python `str.strip` and the regex class `\s` match
(ASCII whitespace, the C0 file/group/record/unit separators, and the Unicode
space characters). -/
def pyIsSpace (c : Char) : Bool :=
  let n := c.toNat
  n == 0x9 || n == 0xA || n == 0xB || n == 0xC || n == 0xD ||
  decide (0x1C ≤ n ∧ n ≤ 0x1F) || n == 0x20 || n == 0x85 || n == 0xA0 ||
  n == 0x1680 || decide (0x2000 ≤ n ∧ n ≤ 0x200A) || n == 0x2028 || n == 0x2029 ||
  n == 0x202F || n == 0x205F || n == 0x3000

/-- Membership in the regex class `[0-9a-z]` (code points 0x30-0x39 are
`'0'`-`'9'`, 0x61-0x7A are `'a'`-`'z'`). -/
def isLowerAlnum (c : Char) : Bool :=
  let n := c.toNat
  decide (0x30 ≤ n ∧ n ≤ 0x39) || decide (0x61 ≤ n ∧ n ≤ 0x7A)

/-- Python `str.lower`, modelled on the ASCII range.  Non-ASCII letters are left
unchanged; every non-ASCII character is erased by the `[^0-9a-z\s]+`
substitution below independently of its case, so this choice does not affect
the output of the normalizer on the material the claims quantify over. -/
def pyToLower (c : Char) : Char :=
  if 0x41 ≤ c.toNat ∧ c.toNat ≤ 0x5A then Char.ofNat (c.toNat + 32) else c

/-- The three `str.replace` calls unifying dash variants (en dash, em dash,
minus sign) to an ASCII hyphen; each replaces a single character, so together
they are a character map. -/
def dashFix (c : Char) : Char :=
  if c = '–' ∨ c = '—' ∨ c = '−' then '-' else c

/-- The regex class `[._/\\-]`. -/
def sepChar (c : Char) : Bool :=
  c == '.' || c == '_' || c == '/' || c == '\\' || c == '-'

/-- The regex class `[^0-9a-z\s]`. -/
def nonAlnumSpace (c : Char) : Bool :=
  !(isLowerAlnum c || pyIsSpace c)

/-- Python `str.strip()`: drop leading and trailing Python whitespace. -/
def pyStrip (cs : List Char) : List Char :=
  (((cs.dropWhile pyIsSpace).reverse).dropWhile pyIsSpace).reverse

/-- Semantics of `re.sub(r"C+", rep, ·)` for a character class `C`: every maximal run of
characters matched by `p` is replaced by the single character `rep`.  The
boolean argument records whether the previous character belonged to a run. -/
def collapseRuns (p : Char → Bool) (rep : Char) : Bool → List Char → List Char
  | _, [] => []
  | inRun, c :: r =>
    if p c then
      if inRun then collapseRuns p rep true r
      else rep :: collapseRuns p rep true r
    else c :: collapseRuns p rep false r

/-- The tail `\s*us\s*$` of the locale-suffix regex, matched against the
remainder of the string. -/
def matchUsTail (cs : List Char) : Bool :=
  match cs.dropWhile pyIsSpace with
  | 'u' :: 's' :: t => t.all pyIsSpace
  | _ => false

/-- Whether `\s*-\s*en\s*[-_ ]\s*us\s*$` matches the whole of `cs`.  The only
place the regex engine backtracks is between `\s*` and `[-_ ]`: the greedy
`\s*` swallows the whitespace run after `en`, and if the next character is not
`-` or `_` it gives one character back, which matches `[-_ ]` only if the run
contained a literal space (all positions inside the run lead to the identical
remainder check, since `\s*` follows the class). -/
def matchLocaleSuffix (cs : List Char) : Bool :=
  match cs.dropWhile pyIsSpace with
  | [] => false
  | c :: t1 =>
    c == '-' &&
      match t1.dropWhile pyIsSpace with
      | 'e' :: 'n' :: t2 =>
        let ws := t2.takeWhile pyIsSpace
        let rest := t2.dropWhile pyIsSpace
        match rest with
        | '-' :: t3 => matchUsTail t3
        | '_' :: t3 => matchUsTail t3
        | _ => if ws.contains ' ' then matchUsTail rest else false
      | _ => false

/-- Semantics of `re.sub(r"\s*-\s*en\s*[-_ ]\s*us\s*$", "", ·)`: the pattern is anchored at
the end, so the (unique, leftmost) match is a suffix; scan left to right and
cut at the first position from which the pattern matches the rest. -/
def applyLocaleSub : List Char → List Char
  | [] => []
  | c :: rest =>
    if matchLocaleSuffix (c :: rest) then []
    else c :: applyLocaleSub rest

/-- The body of `norm` on an actual string, at character-list level. -/
def normChars (cs : List Char) : List Char :=
  let x1 := (pyStrip cs).map pyToLower
  let x2 := applyLocaleSub x1
  let x3 := x2.map dashFix
  let x4 := collapseRuns sepChar ' ' false x3
  let x5 := collapseRuns nonAlnumSpace ' ' false x4
  pyStrip (collapseRuns pyIsSpace ' ' false x5)

/-- The function `norm` on a (non-None) string. -/
def normS (s : String) : String :=
  String.mk (normChars s.data)

/-- The function `norm`, including the `if s is None: return ""` guard. -/
def norm : Option String → String
  | none => ""
  | some s => normS s

/- ──────────────────────────────────────────────────────────────────────
   Column letter arithmetic (app_masterfile.py lines 38-51).

   Python:
     def _col_letter(n):
         s = ""
         while n:
             n, r = divmod(n-1, 26)
             s = chr(65+r) + s
         return s
     def _col_number(letters):
         n = 0
         for ch in letters:
             if not ch.isalpha(): break
             n = n * 26 + (ord(ch.upper()) - 64)
         return n
   ────────────────────────────────────────────────────────────────────── -/

/-- Model of `_col_letter`, written with explicit fuel so that the recursion is
structural (each loop iteration replaces `n` by `(n-1) / 26 < n`, so fuel `n`
always suffices; `colLetter_fuel_eq` below proves fuel irrelevance). -/
def colLetterChars : Nat → Nat → List Char
  | 0, _ => []
  | _, 0 => []
  | fuel + 1, n + 1 => colLetterChars fuel (n / 26) ++ [Char.ofNat (65 + n % 26)]

def colLetter (n : Nat) : String :=
  String.mk (colLetterChars n n)

/-- Python `ch.isalpha()`, modelled on the ASCII range (0x41-0x5A, 0x61-0x7A); the
column strings the patcher feeds `_col_number` consist of `A`-`Z` only. -/
def pyIsAlpha (c : Char) : Bool :=
  let n := c.toNat
  decide (0x41 ≤ n ∧ n ≤ 0x5A) || decide (0x61 ≤ n ∧ n ≤ 0x7A)

/-- Python `ord(ch.upper())`, modelled on the ASCII range. -/
def pyOrdUpper (c : Char) : Nat :=
  if 0x61 ≤ c.toNat ∧ c.toNat ≤ 0x7A then c.toNat - 32 else c.toNat

/-- The loop of `_col_number`: fold over the characters, stopping at the
first non-alphabetic one. -/
def colNumberAux : Nat → List Char → Nat
  | acc, [] => acc
  | acc, c :: r =>
    if pyIsAlpha c then colNumberAux (acc * 26 + (pyOrdUpper c - 64)) r
    else acc

def colNumber (letters : String) : Nat :=
  colNumberAux 0 letters.data

/- ──────────────────────────────────────────────────────────────────────
   Range parsing and clamping (app_masterfile.py lines 25-26, 53-57,
   133-140).
   ────────────────────────────────────────────────────────────────────── -/

/-- Whether `c` matches the regex class `[A-Z]`. -/
def isUpperAZ (c : Char) : Bool :=
  decide (0x41 ≤ c.toNat ∧ c.toNat ≤ 0x5A)

/-- Whether `c` matches the regex class `[0-9]`. -/
def isDigit09 (c : Char) : Bool :=
  decide (0x30 ≤ c.toNat ∧ c.toNat ≤ 0x39)

/-- Python `int(·)` on a string of decimal digits. -/
def digitsToNat : Nat → List Char → Nat
  | acc, [] => acc
  | acc, c :: r => digitsToNat (acc * 10 + (c.toNat - 0x30)) r

/-- A full match of `RANGE_RE = ^([A-Z]+)(\d+):([A-Z]+)(\d+)$`, returning the
four capture groups.  The groups are parsed greedily, which for adjacent
distinct character classes coincides with the regex semantics. -/
def rangeReMatch (s : String) : Option (String × Nat × String × Nat) :=
  let cs := s.data
  let g1 := cs.takeWhile isUpperAZ
  let rest1 := cs.dropWhile isUpperAZ
  let g2 := rest1.takeWhile isDigit09
  let rest2 := rest1.dropWhile isDigit09
  match rest2 with
  | ':' :: rest3 =>
    let g3 := rest3.takeWhile isUpperAZ
    let rest4 := rest3.dropWhile isUpperAZ
    let g4 := rest4.takeWhile isDigit09
    let rest5 := rest4.dropWhile isDigit09
    if g1 ≠ [] && g2 ≠ [] && g3 ≠ [] && g4 ≠ [] && rest5 = [] then
      some (String.mk g1, digitsToNat 0 g2, String.mk g3, digitsToNat 0 g4)
    else none
  | _ => none

/-- Model of `_parse_range`: parse `ref` against `RANGE_RE`, defaulting to
`("A", 1, "A", 1)` when it does not match. -/
def parseRange (ref : String) : String × Nat × String × Nat :=
  (rangeReMatch ref).getD ("A", 1, "A", 1)

/-- Model of `_clamp_coords` (lines 133-140): clamp both corners into
`[1, last_col] x [1, last_row]` and swap corners when min > max after
clamping.  Row inputs and bounds are Python integers (`Int`); column inputs
arrive as capture-group strings. -/
def clampCoords (c1 : String) (r1 : Int) (c2 : String) (r2 : Int)
    (lastCol lastRow : Int) : String × Int × String × Int :=
  let c1n := max 1 (min (colNumber c1 : Int) lastCol)
  let c2n := max 1 (min (colNumber c2 : Int) lastCol)
  let r1c := max 1 (min r1 lastRow)
  let r2c := max 1 (min r2 lastRow)
  let cs := if c2n < c1n then (c2n, c1n) else (c1n, c2n)
  let rs := if r2c < r1c then (r2c, r1c) else (r1c, r2c)
  (colLetter cs.1.toNat, rs.1, colLetter cs.2.toNat, rs.2)

/- ──────────────────────────────────────────────────────────────────────
   Cell text sanitization (app_masterfile.py lines 24, 33-36).
   ────────────────────────────────────────────────────────────────────── -/

/-- The regex `_INVALID_XML_CHARS = [\x00-\x08\x0B\x0C\x0E-\x1F\uD800-\uDFFF]`.
(The surrogate range cannot occur in a Lean `Char`, which is a Unicode scalar
value; the clause is kept for fidelity.) -/
def isInvalidXmlChar (c : Char) : Bool :=
  let n := c.toNat
  decide (n ≤ 0x8) || n == 0xB || n == 0xC || decide (0xE ≤ n ∧ n ≤ 0x1F) ||
  decide (0xD800 ≤ n ∧ n ≤ 0xDFFF)

/-- Model of `sanitize_xml_text` on an actual string: delete every invalid character.
(The `None → ""` branch is not reached by the patcher, which feeds it the
string values of the block.) -/
def sanitizeXmlText (s : String) : String :=
  String.mk (s.data.filter (fun c => !isInvalidXmlChar c))

/- ──────────────────────────────────────────────────────────────────────
   `_patch_sheet_xml` row replacement (app_masterfile.py lines 223-261).

   The `sheetData` element is modelled as a list of rows.  An original row is
   represented by the integer the patcher parses from its `r` attribute
   (`int(row.attrib.get("r","0") or "0")`, 0 when absent/unparseable)
   together with an opaque payload standing for the rest of the element; a
   freshly built row carries exactly the attributes and cells the code
   constructs.  (The presentational `x14ac:dyDescent` row attribute, which the
   code also sets, carries no claim-relevant content and is not modelled.)
   ────────────────────────────────────────────────────────────────────── -/

/-- A `<c>` element as built by `_patch_sheet_xml`: reference, cell type, and
inline-string text (`<is><t xml:space="preserve">txt</t></is>`). -/
structure CellX where
  ref : String
  t : String
  text : String
  deriving DecidableEq, Repr

/-- A `<row>` element as built by `_patch_sheet_xml`. -/
structure NewRow where
  r : Int
  spans : String
  cells : List CellX
  deriving DecidableEq, Repr

/-- The `spans` attribute: `f"1:{used_cols_final}" if used_cols_final > 0 else "1:1"`. -/
def spansStr (usedColsFinal : Int) : String :=
  if usedColsFinal > 0 then "1:" ++ toString usedColsFinal else "1:1"

/-- The cells of one new row: for `j in range(used_cols_final)`, take
`row_vals[j]` (or `""` past the end), skip falsy values, sanitize, skip
values that sanitize to `""`, and emit an inline-string cell at column
`j+1`. -/
def mkCells (usedColsFinal : Int) (rowVals : List String) (r : Int) : List CellX :=
  (List.range usedColsFinal.toNat).filterMap fun j =>
    let v := rowVals.getD j ""
    if v = "" then none
    else
      let txt := sanitizeXmlText v
      if txt = "" then none
      else some ⟨colLetter (j + 1) ++ toString r, "inlineStr", txt⟩

/-- One new row of the block, numbered `start_row + i`. -/
def mkRow (startRow usedColsFinal : Int) (i : Nat) (rowVals : List String) : NewRow :=
  ⟨startRow + i, spansStr usedColsFinal, mkCells usedColsFinal rowVals (startRow + i)⟩

/-- The new rows appended to `sheetData`: one per block row, in order, but —
because of the `any_val` flag — only when at least one cell was emitted. -/
def newRowsList (startRow usedColsFinal : Int) (block : List (List String)) :
    List NewRow :=
  block.enum.filterMap fun p =>
    let row := mkRow startRow usedColsFinal p.1 p.2
    if row.cells = [] then none else some row

/-- The row-replacement phase of `_patch_sheet_xml`: remove every existing row
whose parsed `r` is `≥ start_row`, keep the rest in order, then append the new
rows.  `α` is the opaque payload of an original row. -/
def patchSheetData {α : Type} (rows : List (Int × α)) (startRow usedColsFinal : Int)
    (block : List (List String)) : List ((Int × α) ⊕ NewRow) :=
  (rows.filter (fun p => decide (p.1 < startRow))).map Sum.inl ++
    (newRowsList startRow usedColsFinal block).map Sum.inr

/- ──────────────────────────────────────────────────────────────────────
   Clamp bounds (app_masterfile.py lines 264-265 and 334, 349).
   ────────────────────────────────────────────────────────────────────── -/

/-- The bound `last_row = max(header_row, start_row + max(0, len(block_2d) - 1))` —
computed identically at line 264 (`_patch_sheet_xml`) and line 349
(`fast_patch_template`); every subsequent clamp receives this value. -/
def lastRowBound (headerRow startRow : Int) (rowCount : Nat) : Int :=
  max headerRow (startRow + max 0 ((rowCount : Int) - 1))

/-- The bound `last_col_num = max(1, used_cols_final)` (line 265). -/
def lastColBound (writeWidth : Int) : Int :=
  max 1 writeWidth

/-- The width `final_cols`: start from `max(1, used_cols)` and fold `min` over the
column widths of the tables that parsed successfully (lines 334-342). -/
def finalColsCompute (usedCols : Int) (tableWidths : List Int) : Int :=
  tableWidths.foldl min (max 1 usedCols)

/- ──────────────────────────────────────────────────────────────────────
   Table parts (app_masterfile.py lines 108-115 and 307-316).
   ────────────────────────────────────────────────────────────────────── -/

/-- A parsed `xl/tables/tableN.xml` document: its `ref` attribute, the
`tableColumns` child (if present) as the list of its child elements, and the
`ref` of its `autoFilter` child (if present). -/
structure TableXml where
  ref : Option String
  tableColumns : Option (List String)
  autoFilterRef : Option String
  deriving DecidableEq, Repr

/-- Model of `_read_table_info`: `(start_col_letter, header_row_from_ref, width)`,
where the width is the number of `tableColumns` children when that element is
present, and the column span of `ref` otherwise. -/
structure TableInfo where
  sc : String
  sr : Nat
  width : Int
  deriving DecidableEq, Repr

def readTableInfo (t : TableXml) : TableInfo :=
  let (sc, sr, ec, _) := parseRange (t.ref.getD "A1:A1")
  let width : Int :=
    match t.tableColumns with
    | some cols => cols.length
    | none => (colNumber ec : Int) - (colNumber sc : Int) + 1
  ⟨sc, sr, width⟩

/-- Model of `_patch_table_xml`: recompute the table range from its original start
column, the header row, the own width of the table and the new last row, and set
both `ref` and the `autoFilter` ref (creating the latter if absent) to it. -/
def patchTableXml (t : TableXml) (headerRow lastRow : Int) (startColLetter : String)
    (widthCols : Int) : TableXml :=
  let lastColLetter := colLetter ((colNumber startColLetter : Int) + widthCols - 1).toNat
  let newRef := startColLetter ++ toString headerRow ++ ":" ++ lastColLetter ++ toString lastRow
  { t with ref := some newRef, autoFilterRef := some newRef }

/- ──────────────────────────────────────────────────────────────────────
   Content types (app_masterfile.py lines 212-220) and repackaging
   (lines 361-376).
   ────────────────────────────────────────────────────────────────────── -/

/-- Python `str.endswith`, at character-list level. -/
def strEndsWith (s suff : String) : Bool :=
  suff.data.isSuffixOf s.data

/-- One child of the `[Content_Types].xml` root: its (namespace-qualified)
tag and its `PartName` attribute, if any. -/
structure CTItem where
  tag : String
  partName : Option String
  deriving DecidableEq, Repr

/-- Model of `_strip_calcchain_from_content_types` on a parsed document: remove every
child whose tag ends with `Override` and whose `PartName` is
`/xl/calcChain.xml`.  (When the bytes do not parse, the
`except` branch of the source returns them unchanged; that case is modelled at the
package level by `stripCTPart` below.) -/
def stripCalcChainCT (children : List CTItem) : List CTItem :=
  children.filter fun ch =>
    !(strEndsWith ch.tag "Override" && ch.partName == some "/xl/calcChain.xml")

/-- The repack loop (lines 363-376): drop `xl/calcChain.xml`; substitute the
new sheet bytes, each successfully repatched table, the new workbook bytes
and the stripped content types by file name; copy everything else verbatim.
`γ` stands for part content (bytes). -/
def repack {γ : Type} (items : List (String × γ)) (sheetPath : String) (newSheet : γ)
    (patchedTables : List (String × γ)) (newWorkbook : γ) (stripCT : γ → γ) :
    List (String × γ) :=
  items.filterMap fun it =>
    if it.1 = "xl/calcChain.xml" then none
    else
      some (it.1,
        if it.1 = sheetPath then newSheet
        else
          match patchedTables.lookup it.1 with
          | some d => d
          | none =>
            if it.1 = "xl/workbook.xml" then newWorkbook
            else if it.1 = "[Content_Types].xml" then stripCT it.2
            else it.2)

/- ──────────────────────────────────────────────────────────────────────
   Sheet part discovery (app_masterfile.py lines 66-89).
   ────────────────────────────────────────────────────────────────────── -/

/-- Path normalization applied to a relationship target:
`target.replace("\\","/")` (a character map, both operands being single
characters), strip a leading `../`, ensure the `xl/` part-store root. -/
def normalizeTarget (target : String) : String :=
  let cs := target.data.map (fun c => if c = '\\' then '/' else c)
  let cs2 := if cs.take 3 = ['.', '.', '/'] then cs.drop 3 else cs
  if cs2.take 3 = ['x', 'l', '/'] then String.mk cs2
  else String.mk ('x' :: 'l' :: '/' :: cs2)

/-- Model of `_find_sheet_part_path`.  Here `sheets` lists the sheet elements of
the workbook descriptor as (name attribute, optional `r:id` attribute), in document order;
`rels` lists the workbook relationships as (`Id`, `Target`).  The Python loop
takes the first sheet whose name matches (its `r:id` may be absent), and
`if not rid` / `if not target` also reject an empty attribute value. -/
def findSheetPartPath (sheets : List (String × Option String))
    (rels : List (String × String)) (sheetName : String) : Except String String :=
  let rid : Option String :=
    match sheets.find? (fun p => p.1 == sheetName) with
    | some p => p.2
    | none => none
  match rid with
  | none => Except.error ("Sheet " ++ sheetName ++ " not found in workbook.xml")
  | some r =>
    if r = "" then Except.error ("Sheet " ++ sheetName ++ " not found in workbook.xml")
    else
      match (rels.find? (fun q => q.1 == r)).map (·.2) with
      | none => Except.error ("Relationship for sheet " ++ sheetName ++ " not found.")
      | some t =>
        if t = "" then Except.error ("Relationship for sheet " ++ sheetName ++ " not found.")
        else Except.ok (normalizeTarget t)

/- ──────────────────────────────────────────────────────────────────────
   `fast_patch_template` (app_masterfile.py lines 318-379).

   Part content is modelled by `PartC`: `sheetPart`/`tablePart`/`ctPart` are
   bytes that `ET.fromstring` parses into the corresponding document shape,
   `rawBytes` are bytes that fail to parse (or whose parse the claims never
   inspect); `sheetDataOut` is the patched sheet part the transform writes.
   Reading a member is lookup by file name.
   ────────────────────────────────────────────────────────────────────── -/

inductive PartC where
  | sheetPart (rows : List (Int × String))
  | sheetDataOut (rows : List ((Int × String) ⊕ NewRow))
  | tablePart (t : TableXml)
  | ctPart (children : List CTItem)
  | rawBytes (s : String)
  deriving DecidableEq, Repr

/-- Reading a member, `zin.read(name)` (archives have unique member names). -/
def readPart (items : List (String × PartC)) (name : String) : Option PartC :=
  (items.find? (fun it => it.1 == name)).map (·.2)

/-- Model of `_strip_calcchain_from_content_types` at part level, including its
`except` branch: bytes that are not a parsed content-types document are
returned unchanged. -/
def stripCTPart : PartC → PartC
  | .ctPart children => .ctPart (stripCalcChainCT children)
  | p => p

/-- Model of `_clamp_defined_names` at part level.  Its whole body is wrapped in
`try/except Exception: return workbook_xml_bytes`, so a workbook part that
does not parse passes through unchanged; the claims under verification do not
depend on the rewriting of defined-name texts itself, and the workbook part
is represented opaquely (`rawBytes`), so the parsed-and-rewritten case does
not arise in this model. -/
def clampDefinedNamesPart (p : PartC) : PartC := p

/-- The `table_infos` accumulation (lines 335-342): skip every table path
whose bytes are missing or fail to parse (`try/except: pass`). -/
def tableInfosOf (items : List (String × PartC)) (tablePaths : List String) :
    List (String × TableInfo) :=
  tablePaths.filterMap fun tp =>
    match readPart items tp with
    | some (.tablePart t) => some (tp, readTableInfo t)
    | _ => none

/-- The `patched_tables` accumulation (lines 350-355): re-read and re-patch
each measured table, skipping any failure (`try/except: pass`). -/
def patchedTablesOf (items : List (String × PartC))
    (tableInfos : List (String × TableInfo)) (headerRow lastRow : Int) :
    List (String × PartC) :=
  tableInfos.filterMap fun x =>
    match readPart items x.1 with
    | some (.tablePart t) =>
      some (x.1, .tablePart (patchTableXml t headerRow lastRow x.2.sc x.2.width))
    | _ => none

/-- Model of `fast_patch_template`.  Here `sheets`/`rels` are the parsed workbook descriptor
and workbook relationships (from `xl/workbook.xml` and
`xl/_rels/workbook.xml.rels`); `tablePaths` is the result of
`_get_table_paths_for_sheet` (the sheet's relationships of type `table`);
`items` is the archive.  Table parts that fail to parse are skipped both when
measuring widths and when repatching (`try/except: pass`); a missing or
unparseable sheet part aborts, as does a missing workbook part
(`zipfile.KeyError` / `ET.ParseError` propagate). -/
def fastPatchTemplate (sheets : List (String × Option String))
    (rels : List (String × String)) (sheetName : String)
    (items : List (String × PartC)) (tablePaths : List String)
    (headerRow startRow usedCols : Int) (block : List (List String)) :
    Except String (List (String × PartC)) := do
  let sheetPath ← findSheetPartPath sheets rels sheetName
  let tableInfos := tableInfosOf items tablePaths
  let finalCols := finalColsCompute usedCols (tableInfos.map (fun x => x.2.width))
  let newSheetRows ←
    match readPart items sheetPath with
    | none => Except.error ("There is no item named " ++ sheetPath ++ " in the archive")
    | some (.sheetPart rows) => pure (patchSheetData rows startRow finalCols block)
    | some (.rawBytes _) => Except.error "sheet part is not well-formed XML"
    | some _ => pure (patchSheetData ([] : List (Int × String)) startRow finalCols block)
  let lastRow := lastRowBound headerRow startRow block.length
  let patchedTables := patchedTablesOf items tableInfos headerRow lastRow
  let newWorkbook ←
    match readPart items "xl/workbook.xml" with
    | none => Except.error "There is no item named xl/workbook.xml in the archive"
    | some w => pure (clampDefinedNamesPart w)
  pure (repack items sheetPath (.sheetDataOut newSheetRows) patchedTables newWorkbook
    stripCTPart)

/- ──────────────────────────────────────────────────────────────────────
   Column resolution (app_masterfile.py lines 577-587).

   Python:
     aliases = mapping_aliases.get(eff_norm, [effective_header])
     resolved = None
     for a in aliases:
         s = series_by_alias.get(norm(a))
         if s is not None:
             resolved = s
             break
   `series_by_alias` maps the normalized source headers to their columns
   (`σ`); it is modelled as the lookup function the loop calls.
   ────────────────────────────────────────────────────────────────────── -/

/-- The alias walk: return the first alias's column, in list order, whose
normalized form has a source column. -/
def resolveAliases {σ : Type} (seriesByAlias : String → Option σ) :
    List String → Option σ
  | [] => none
  | a :: rest =>
    match seriesByAlias (normS a) with
    | some s => some s
    | none => resolveAliases seriesByAlias rest

/-- Resolution of one template column from its effective header:
`mapping_aliases.get(norm(eff), [eff])`, then the alias walk. -/
def resolveColumn {σ : Type} (mappingAliases : String → Option (List String))
    (seriesByAlias : String → Option σ) (effectiveHeader : String) : Option σ :=
  resolveAliases seriesByAlias
    ((mappingAliases (normS effectiveHeader)).getD [effectiveHeader])

/- ──────────────────────────────────────────────────────────────────────
   Proof-support predicates describing the output shape of `norm`.
   ────────────────────────────────────────────────────────────────────── -/

/-- A character that can appear in a normalized header: `[0-9a-z]` or a
single space. -/
def GoodChar (c : Char) : Prop :=
  isLowerAlnum c = true ∨ c = ' '

/-- No two adjacent spaces. -/
def NoDoubleSpace (cs : List Char) : Prop :=
  cs.Chain' (fun a b => ¬(a = ' ' ∧ b = ' '))

/-- The shape every `norm` output has: only `[0-9a-z ]` characters, single
spaces, no leading or trailing space. -/
def Canonical (cs : List Char) : Prop :=
  (∀ c ∈ cs, GoodChar c) ∧ NoDoubleSpace cs ∧
    cs.head? ≠ some ' ' ∧ cs.getLast? ≠ some ' '

/- ──────────────────────────────────────────────────────────────────────
   Helper lemmas: column letter arithmetic.
   ────────────────────────────────────────────────────────────────────── -/

lemma colLetterChars_fuel (n : Nat) :
    ∀ f1 f2, n ≤ f1 → n ≤ f2 → colLetterChars f1 n = colLetterChars f2 n := by
  induction n using Nat.strong_induction_on with
  | _ n ih =>
    intro f1 f2 h1 h2
    match n, f1, f2, h1, h2 with
    | 0, 0, 0, _, _ => rfl
    | 0, 0, _ + 1, _, _ => rfl
    | 0, _ + 1, 0, _, _ => rfl
    | 0, _ + 1, _ + 1, _, _ => rfl
    | m + 1, a + 1, b + 1, h1, h2 =>
      simp only [colLetterChars]
      congr 1
      exact ih (m / 26) (Nat.lt_succ_of_le (Nat.div_le_self m 26)) a b
        (le_trans (Nat.div_le_self m 26) (Nat.succ_le_succ_iff.mp h1))
        (le_trans (Nat.div_le_self m 26) (Nat.succ_le_succ_iff.mp h2))

/-- The canonical unfolding of the `_col_letter` loop. -/
lemma colLetterChars_succ (n : Nat) :
    colLetterChars (n + 1) (n + 1) =
      colLetterChars (n / 26) (n / 26) ++ [Char.ofNat (65 + n % 26)] := by
  simp only [colLetterChars]
  congr 1
  exact colLetterChars_fuel (n / 26) n (n / 26) (Nat.div_le_self n 26) le_rfl

lemma uppercase_char_facts (r : Nat) (hr : r < 26) :
    pyIsAlpha (Char.ofNat (65 + r)) = true ∧
      pyOrdUpper (Char.ofNat (65 + r)) - 64 = r + 1 := by
  interval_cases r <;> exact ⟨by decide, by decide⟩

lemma mem_colLetterChars_alpha (n : Nat) :
    ∀ c ∈ colLetterChars n n, pyIsAlpha c = true := by
  induction n using Nat.strong_induction_on with
  | _ n ih =>
    match n with
    | 0 => intro c hc; simp [colLetterChars] at hc
    | m + 1 =>
      intro c hc
      rw [colLetterChars_succ] at hc
      rcases List.mem_append.mp hc with h | h
      · exact ih (m / 26) (Nat.lt_succ_of_le (Nat.div_le_self m 26)) c h
      · rcases List.mem_singleton.mp h with rfl
        exact (uppercase_char_facts (m % 26) (Nat.mod_lt m (by norm_num))).1

lemma colNumberAux_append_of_alpha (xs ys : List Char) (acc : Nat)
    (h : ∀ x ∈ xs, pyIsAlpha x = true) :
    colNumberAux acc (xs ++ ys) = colNumberAux (colNumberAux acc xs) ys := by
  induction xs generalizing acc with
  | nil => rfl
  | cons x xs ihx =>
    have hx := h x (List.mem_cons_self x xs)
    simp only [List.cons_append, colNumberAux, hx, if_true]
    exact ihx _ (fun y hy => h y (List.mem_cons_of_mem x hy))

lemma colNumberAux_colLetterChars (n : Nat) :
    ∀ acc, colNumberAux acc (colLetterChars n n) =
      acc * 26 ^ (colLetterChars n n).length + n := by
  induction n using Nat.strong_induction_on with
  | _ n ih =>
    match n with
    | 0 => intro acc; simp [colLetterChars, colNumberAux]
    | m + 1 =>
      intro acc
      rw [colLetterChars_succ,
        colNumberAux_append_of_alpha _ _ _ (mem_colLetterChars_alpha (m / 26)),
        ih (m / 26) (Nat.lt_succ_of_le (Nat.div_le_self m 26))]
      obtain ⟨halpha, hord⟩ := uppercase_char_facts (m % 26) (Nat.mod_lt m (by norm_num))
      simp only [colNumberAux, halpha, if_true, hord]
      have hdm : 26 * (m / 26) + m % 26 = m := Nat.div_add_mod m 26
      simp only [List.length_append, List.length_singleton, pow_succ]
      ring_nf
      omega

/-- Round trip `_col_number(_col_letter(n)) == n`, for every `n` (at `n = 0` both sides
degenerate: the letter string is empty and the fold returns 0). -/
lemma colNumber_colLetter (n : Nat) : colNumber (colLetter n) = n := by
  have h := colNumberAux_colLetterChars n 0
  simpa [colNumber, colLetter] using h

/- ──────────────────────────────────────────────────────────────────────
   Claim C10 — column-letter conversion round-trips.
   ────────────────────────────────────────────────────────────────────── -/

/-- C10: for every integer `n ≥ 1`, `_col_number(_col_letter(n)) == n`, so
every column index the patcher writes denotes the intended column. -/
theorem colNumber_colLetter_roundtrip (n : Nat) (h : 1 ≤ n) :
    colNumber (colLetter n) = n :=
  colNumber_colLetter n

theorem colNumber_colLetter_roundtrip_witness :
    1 ≤ 703 ∧ colNumber (colLetter 703) = 703 :=
  ⟨by norm_num, colNumber_colLetter_roundtrip 703 (by norm_num)⟩

/- ──────────────────────────────────────────────────────────────────────
   Claim C6 — `_clamp_coords` emits a valid (non-inverted) in-bounds range.
   ────────────────────────────────────────────────────────────────────── -/

/-- C6: for all input corners and bounds `last_col ≥ 1`, `last_row ≥ 1`, the
range `_clamp_coords` returns satisfies
`1 ≤ start_col ≤ end_col ≤ last_col` and `1 ≤ start_row ≤ end_row ≤ last_row`;
corners are swapped when clamping inverted them. -/
theorem clampCoords_valid (c1 c2 : String) (r1 r2 lastCol lastRow : Int)
    (hc : 1 ≤ lastCol) (hr : 1 ≤ lastRow) :
    (1 ≤ (colNumber (clampCoords c1 r1 c2 r2 lastCol lastRow).1 : Int) ∧
      (colNumber (clampCoords c1 r1 c2 r2 lastCol lastRow).1 : Int) ≤
        (colNumber (clampCoords c1 r1 c2 r2 lastCol lastRow).2.2.1 : Int) ∧
      (colNumber (clampCoords c1 r1 c2 r2 lastCol lastRow).2.2.1 : Int) ≤ lastCol) ∧
    (1 ≤ (clampCoords c1 r1 c2 r2 lastCol lastRow).2.1 ∧
      (clampCoords c1 r1 c2 r2 lastCol lastRow).2.1 ≤
        (clampCoords c1 r1 c2 r2 lastCol lastRow).2.2.2 ∧
      (clampCoords c1 r1 c2 r2 lastCol lastRow).2.2.2 ≤ lastRow) := by
  have key : ∀ m : Int, 1 ≤ m → (colNumber (colLetter m.toNat) : Int) = m := by
    intro m hm
    rw [colNumber_colLetter]
    exact Int.toNat_of_nonneg (le_trans zero_le_one hm)
  simp only [clampCoords]
  set a := max 1 (min (colNumber c1 : Int) lastCol) with ha
  set b := max 1 (min (colNumber c2 : Int) lastCol) with hb
  have ha1 : 1 ≤ a := le_max_left _ _
  have hb1 : 1 ≤ b := le_max_left _ _
  have haC : a ≤ lastCol := max_le hc (min_le_right _ _)
  have hbC : b ≤ lastCol := max_le hc (min_le_right _ _)
  have hr11 : 1 ≤ max 1 (min r1 lastRow) := le_max_left _ _
  have hr21 : 1 ≤ max 1 (min r2 lastRow) := le_max_left _ _
  have hr1R : max 1 (min r1 lastRow) ≤ lastRow := max_le hr (min_le_right _ _)
  have hr2R : max 1 (min r2 lastRow) ≤ lastRow := max_le hr (min_le_right _ _)
  split_ifs with h1 h2 h2 <;>
    simp only [key a ha1, key b hb1] <;> omega

theorem clampCoords_valid_witness :
    (1 ≤ (colNumber (clampCoords "B" 10 "ZZ" 3 5 5).1 : Int) ∧
      (colNumber (clampCoords "B" 10 "ZZ" 3 5 5).1 : Int) ≤
        (colNumber (clampCoords "B" 10 "ZZ" 3 5 5).2.2.1 : Int) ∧
      (colNumber (clampCoords "B" 10 "ZZ" 3 5 5).2.2.1 : Int) ≤ 5) ∧
    (1 ≤ (clampCoords "B" 10 "ZZ" 3 5 5).2.1 ∧
      (clampCoords "B" 10 "ZZ" 3 5 5).2.1 ≤ (clampCoords "B" 10 "ZZ" 3 5 5).2.2.2 ∧
      (clampCoords "B" 10 "ZZ" 3 5 5).2.2.2 ≤ 5) :=
  clampCoords_valid "B" "ZZ" 10 3 5 5 (by norm_num) (by norm_num)

/- ──────────────────────────────────────────────────────────────────────
   Claim C2 — the clamp bounds.  The claimed formula
   `last_row = max(header_row_index, first_data_row_index + row_count - 1)`
   disagrees with the code when the block is empty: line 264/349 computes
   `start_row + max(0, len(block_2d) - 1)`, which floors the offset at 0.
   ────────────────────────────────────────────────────────────────────── -/

/-- C2 counterexample: with header row 2, data start row 4 and an empty block
(0 rows — an onboarding sheet with headers only), the bound computed by the code is 4 while
the claimed formula `max(header_row_index, first_data_row_index + row_count
- 1)` gives 3. -/
theorem lastRowBound_empty_block_counterexample :
    lastRowBound 2 4 0 = 4 ∧ max (2 : Int) (4 + (0 : Int) - 1) = 3 := by
  constructor
  · rfl
  · decide

/-- C2 (amended): the bounds used for all clamping are
`last_row = max(header_row_index, first_data_row_index + max(0, row_count - 1))`
— which equals the claimed
`max(header_row_index, first_data_row_index + row_count - 1)` whenever
`row_count ≥ 1` — and `last_col = max(1, write_width)`. -/
theorem patch_bounds (h s : Int) (n : Nat) (w : Int) :
    lastRowBound h s n = max h (s + max 0 ((n : Int) - 1)) ∧
    (1 ≤ n → lastRowBound h s n = max h (s + (n : Int) - 1)) ∧
    lastColBound w = max 1 w := by
  refine ⟨rfl, ?_, rfl⟩
  intro hn
  have h1 : (1 : Int) ≤ (n : Int) := by exact_mod_cast hn
  have h2 : max (0 : Int) ((n : Int) - 1) = (n : Int) - 1 := max_eq_right (by omega)
  unfold lastRowBound
  rw [h2]
  congr 1
  ring

theorem patch_bounds_witness :
    lastRowBound 2 4 3 = max 2 (4 + (3 : Int) - 1) :=
  (patch_bounds 2 4 3 0).2.1 (by norm_num)

/- ──────────────────────────────────────────────────────────────────────
   Claim C1 — `_patch_sheet_xml` row replacement.  The `any_val` flag makes
   the code skip a block row all of whose values are empty (or sanitize to
   empty): no row element is appended for it, so "a new row element for
   every block row" fails; the rest of the claim holds.
   ────────────────────────────────────────────────────────────────────── -/

lemma mem_mkCells {c : CellX} {usedCols : Int} {vals : List String} {r : Int}
    (hc : c ∈ mkCells usedCols vals r) : c.t = "inlineStr" ∧ c.text ≠ "" := by
  simp only [mkCells, List.mem_filterMap] at hc
  obtain ⟨j, -, hj⟩ := hc
  split_ifs at hj with h1 h2
  · simp only [Option.some.injEq] at hj
    subst hj
    exact ⟨rfl, h2⟩

/-- C1 counterexample: a block consisting of one row whose single value is
empty.  The claim requires the patched sheet to contain a new row element
for this block row at the first data row index (4); the code appends no row
at all (`any_val` is never set), so the patched `sheetData` is empty. -/
theorem patchSheetData_empty_row_counterexample :
    patchSheetData ([] : List (Int × Unit)) 4 1 [[""]] = [] := by decide

/-- C1 (amended): in the patched `sheetData` (i) no original row with parsed
row number at or after the first data row index survives; (ii) the new rows
are exactly one per block row *having at least one non-empty
(post-sanitization) value*, in block order, numbered `start_row + i` by the
block index `i` of the row (all-empty block rows produce no row element); and
(iii) within each new row a cell is emitted only for values that are
non-empty after sanitization, every emitted cell typed `inlineStr`. -/
theorem patchSheetData_spec {α : Type} (rows : List (Int × α)) (startRow usedCols : Int)
    (block : List (List String)) :
    (∀ r a, Sum.inl (r, a) ∈ patchSheetData rows startRow usedCols block → r < startRow) ∧
    ((patchSheetData rows startRow usedCols block).filterMap Sum.getRight? =
      newRowsList startRow usedCols block) ∧
    (∀ i : Nat, ∀ hi : i < block.length,
      mkCells usedCols (block.get ⟨i, hi⟩) (startRow + i) ≠ [] →
      Sum.inr (mkRow startRow usedCols i (block.get ⟨i, hi⟩)) ∈
        patchSheetData rows startRow usedCols block) ∧
    (∀ nr : NewRow, Sum.inr nr ∈ patchSheetData rows startRow usedCols block →
      ∀ c ∈ nr.cells, c.t = "inlineStr" ∧ c.text ≠ "") := by
  refine ⟨?_, ?_, ?_, ?_⟩
  · intro r a hmem
    simp only [patchSheetData, List.mem_append, List.mem_map, List.mem_filter] at hmem
    rcases hmem with ⟨p, ⟨-, hlt⟩, hp⟩ | ⟨nr, -, hp⟩
    · cases hp
      exact of_decide_eq_true hlt
    · cases hp
  · simp only [patchSheetData, List.filterMap_append, List.filterMap_map]
    have h1 : ∀ l : List (Int × α),
        List.filterMap (Sum.getRight? ∘ (Sum.inl : (Int × α) → (Int × α) ⊕ NewRow)) l
          = [] := by
      intro l
      induction l with
      | nil => rfl
      | cons x xs ih => simp [Sum.getRight?, ih]
    have h2 : ∀ l : List NewRow,
        List.filterMap (Sum.getRight? ∘ (Sum.inr : NewRow → (Int × α) ⊕ NewRow)) l
          = l := by
      intro l
      induction l with
      | nil => rfl
      | cons x xs ih => simpa [Sum.getRight?] using ih
    rw [h1, h2, List.nil_append]
  · intro i hi hcells
    have hmem : (i, block.get ⟨i, hi⟩) ∈ block.enum := by
      have hlen : i < block.enum.length := by simpa [List.enum_length] using hi
      have : block.enum.get ⟨i, hlen⟩ = (i, block.get ⟨i, hi⟩) := by
        simp [List.getElem_enum]
      rw [← this]
      exact List.get_mem block.enum i hlen
    simp only [patchSheetData, List.mem_append, List.mem_map]
    refine Or.inr ⟨mkRow startRow usedCols i (block.get ⟨i, hi⟩), ?_, rfl⟩
    simp only [newRowsList, List.mem_filterMap]
    refine ⟨(i, block.get ⟨i, hi⟩), hmem, ?_⟩
    have hc' : ¬mkCells usedCols block[i] (startRow + (i : Int)) = [] := by
      simpa using hcells
    simp [mkRow, hc']
  · intro nr hmem c hc
    simp only [patchSheetData, List.mem_append, List.mem_map, List.mem_filter] at hmem
    rcases hmem with ⟨p, -, hp⟩ | ⟨nr', hnr', hp⟩
    · cases hp
    · cases hp
      simp only [newRowsList, List.mem_filterMap] at hnr'
      obtain ⟨q, -, hq⟩ := hnr'
      split_ifs at hq
      simp only [Option.some.injEq] at hq
      subst hq
      exact mem_mkCells hc

theorem patchSheetData_spec_witness :
    Sum.inr (mkRow 4 2 0 ["x", ""]) ∈
      patchSheetData [((1 : Int), "hdr"), (5, "old")] 4 2 [["x", ""], ["", ""]] :=
  (patchSheetData_spec [((1 : Int), "hdr"), (5, "old")] 4 2 [["x", ""], ["", ""]]).2.2.1
    0 (by norm_num) (by decide)

/- ──────────────────────────────────────────────────────────────────────
   Claim C3 — write width with attached tables, and table range sync.
   ────────────────────────────────────────────────────────────────────── -/

lemma foldl_min_factor (l : List Int) : ∀ a b : Int, l.foldl min (min a b) = min a (l.foldl min b) := by
  induction l with
  | nil => intro a b; rfl
  | cons c t ih =>
    intro a b
    simp only [List.foldl_cons, min_assoc]
    exact ih a (min b c)

/-- C3: with at least one attached table that parses, the write width is
`min(used_cols, minimum table width)` (the detected template width `used_cols`
is always ≥ 1, being `max(last_nonempty, 1)` from `worksheet_used_cols`);
the new `ref` of each patched table runs from its original start column at the
header row to `start_col + width - 1` at `last_row`, spanning exactly its own
`width` columns, and its `autoFilter` ref is set identically. -/
theorem write_width_and_table_sync (u w : Int) (ws : List Int) (hu : 1 ≤ u)
    (t : TableXml) (headerRow lastRow : Int) (sc : String) (width : Int)
    (hw : 1 ≤ width) (hsc : 1 ≤ colNumber sc) :
    finalColsCompute u (w :: ws) = min u (ws.foldl min w) ∧
    (patchTableXml t headerRow lastRow sc width).ref =
      some (sc ++ toString headerRow ++ ":" ++
        colLetter ((colNumber sc : Int) + width - 1).toNat ++ toString lastRow) ∧
    (patchTableXml t headerRow lastRow sc width).autoFilterRef =
      (patchTableXml t headerRow lastRow sc width).ref ∧
    (colNumber (colLetter ((colNumber sc : Int) + width - 1).toNat) : Int) -
      (colNumber sc : Int) + 1 = width := by
  refine ⟨?_, rfl, rfl, ?_⟩
  · have h1 : max 1 u = u := max_eq_right hu
    simp only [finalColsCompute, List.foldl_cons, h1]
    exact foldl_min_factor ws u w
  · have hm : (1 : Int) ≤ (colNumber sc : Int) + width - 1 := by
      have : (1 : Int) ≤ (colNumber sc : Int) := by exact_mod_cast hsc
      omega
    rw [colNumber_colLetter]
    rw [Int.toNat_of_nonneg (by omega)]
    ring

theorem write_width_and_table_sync_witness :
    finalColsCompute 8 [5] = 5 ∧
    (patchTableXml ⟨none, none, none⟩ 2 10 "A" 5).ref = some "A2:E10" := by
  have h := write_width_and_table_sync 8 5 [] (by norm_num) ⟨none, none, none⟩ 2 10 "A" 5
    (by norm_num) (by decide)
  refine ⟨?_, ?_⟩
  · rw [h.1]; decide
  · rw [h.2.1]; decide

/- ──────────────────────────────────────────────────────────────────────
   Claim C4 — calc-chain removal.
   ────────────────────────────────────────────────────────────────────── -/

lemma stripCalcChainCT_clean (children : List CTItem) :
    ∀ it ∈ stripCalcChainCT children,
      ¬(strEndsWith it.tag "Override" = true ∧ it.partName = some "/xl/calcChain.xml") := by
  intro it hit
  simp only [stripCalcChainCT, List.mem_filter, Bool.not_eq_true', Bool.and_eq_false_iff,
    beq_eq_false_iff_ne] at hit
  rintro ⟨h1, h2⟩
  rcases hit.2 with h | h
  · rw [h1] at h; cases h
  · exact h h2

lemma lookup_mem_value {α β : Type} [BEq α] {l : List (α × β)} {k : α} {d : β}
    (h : l.lookup k = some d) : ∃ q ∈ l, q.2 = d := by
  induction l with
  | nil => cases h
  | cons a t ih =>
    simp only [List.lookup] at h
    split at h
    · simp only [Option.some.injEq] at h
      exact ⟨a, List.mem_cons_self a t, h⟩
    · obtain ⟨q, hq, hd⟩ := ih h
      exact ⟨q, List.mem_cons_of_mem a hq, hd⟩

lemma repack_no_calcchain {γ : Type} (items : List (String × γ)) (sp : String) (ns : γ)
    (pts : List (String × γ)) (nw : γ) (f : γ → γ) :
    ∀ p ∈ repack items sp ns pts nw f, p.1 ≠ "xl/calcChain.xml" := by
  intro p hp
  simp only [repack, List.mem_filterMap] at hp
  obtain ⟨it, -, hit⟩ := hp
  by_cases hcc : it.1 = "xl/calcChain.xml"
  · rw [if_pos hcc] at hit; cases hit
  · rw [if_neg hcc] at hit
    simp only [Option.some.injEq] at hit
    rw [← hit]
    exact hcc

/-- Structure of a successful `fast_patch_template` run: the output is the
repack of the archive, with the patched-table substitutions all table
parts. -/
lemma fastPatchTemplate_ok_structure (sheets : List (String × Option String))
    (rels : List (String × String)) (sheetName : String)
    (items : List (String × PartC)) (tablePaths : List String)
    (headerRow startRow usedCols : Int) (block : List (List String))
    (out : List (String × PartC))
    (hok : fastPatchTemplate sheets rels sheetName items tablePaths headerRow startRow
      usedCols block = Except.ok out) :
    ∃ (sheetPath : String) (newRows : List ((Int × String) ⊕ NewRow))
      (patchedTables : List (String × PartC)) (newWorkbook : PartC),
      out = repack items sheetPath (.sheetDataOut newRows) patchedTables newWorkbook
        stripCTPart ∧
      (∀ q ∈ patchedTables, ∃ tx : TableXml, q.2 = PartC.tablePart tx) := by
  unfold fastPatchTemplate at hok
  simp only [bind, Except.bind, pure, Except.pure] at hok
  repeat' split at hok
  all_goals
    first
      | (simp only [Except.ok.injEq] at hok
         subst hok
         refine ⟨_, _, _, _, rfl, ?_⟩
         intro q hq
         simp only [patchedTablesOf, List.mem_filterMap] at hq
         obtain ⟨x, -, hx⟩ := hq
         split at hx
         · simp only [Option.some.injEq] at hx
           subst hx
           exact ⟨_, rfl⟩
         · cases hx)
      | cases hok

/-- C4: a successful patch's output package has no `xl/calcChain.xml` member,
and its content-types document (whenever it parsed, which is the only case in
which it can declare anything) contains no Override declaration for
`/xl/calcChain.xml`. -/
theorem calcchain_removed (sheets : List (String × Option String))
    (rels : List (String × String)) (sheetName : String)
    (items : List (String × PartC)) (tablePaths : List String)
    (headerRow startRow usedCols : Int) (block : List (List String))
    (out : List (String × PartC))
    (hok : fastPatchTemplate sheets rels sheetName items tablePaths headerRow startRow
      usedCols block = Except.ok out) :
    (∀ p ∈ out, p.1 ≠ "xl/calcChain.xml") ∧
    (∀ ch : List CTItem, ("[Content_Types].xml", PartC.ctPart ch) ∈ out →
      ∀ it ∈ ch,
        ¬(strEndsWith it.tag "Override" = true ∧
          it.partName = some "/xl/calcChain.xml")) := by
  obtain ⟨sp, nsr, pts, nw, hout, hpts⟩ :=
    fastPatchTemplate_ok_structure sheets rels sheetName items tablePaths headerRow
      startRow usedCols block out hok
  subst hout
  refine ⟨repack_no_calcchain items sp _ pts nw stripCTPart, ?_⟩
  intro ch hch it hit
  simp only [repack, List.mem_filterMap] at hch
  obtain ⟨q, -, hq⟩ := hch
  by_cases hcc : q.1 = "xl/calcChain.xml"
  · rw [if_pos hcc] at hq; cases hq
  · rw [if_neg hcc] at hq
    simp only [Option.some.injEq, Prod.mk.injEq] at hq
    obtain ⟨hname, hdata⟩ := hq
    by_cases hsp : q.1 = sp
    · rw [if_pos hsp] at hdata; cases hdata
    · rw [if_neg hsp] at hdata
      rcases hlk : pts.lookup q.1 with - | d
      · rw [hlk] at hdata
        simp only at hdata
        by_cases hwb : q.1 = "xl/workbook.xml"
        · rw [hname] at hwb
          exact absurd hwb (by decide)
        · rw [if_neg hwb, if_pos (by rw [hname])] at hdata
          rcases hq2 : q.2 with rows | rows | tx | ch0 | s <;> rw [hq2] at hdata <;>
            simp only [stripCTPart] at hdata <;> try cases hdata
          exact stripCalcChainCT_clean ch0 it hit
      · rw [hlk] at hdata
        simp only at hdata
        obtain ⟨q', hq', hd⟩ := lookup_mem_value hlk
        obtain ⟨tx, htx⟩ := hpts _ hq'
        rw [hd] at htx
        rw [hdata] at htx
        exact PartC.noConfusion htx

theorem calcchain_removed_witness :
    ("xl/workbook.xml" : String) ≠ "xl/calcChain.xml" := by
  have h := calcchain_removed [("Template", some "rId1")]
    [("rId1", "worksheets/sheet1.xml")] "Template"
    [("xl/worksheets/sheet1.xml", .sheetPart [(5, "old")]),
     ("xl/workbook.xml", .rawBytes "wb"),
     ("[Content_Types].xml", .ctPart [⟨"nsOverride", some "/xl/calcChain.xml"⟩]),
     ("xl/calcChain.xml", .rawBytes "cc")]
    [] 2 4 2 [["x", ""]]
    [("xl/worksheets/sheet1.xml",
        .sheetDataOut [Sum.inr ⟨4, "1:2", [⟨"A4", "inlineStr", "x"⟩]⟩]),
     ("xl/workbook.xml", .rawBytes "wb"), ("[Content_Types].xml", .ctPart [])]
    rfl
  exact h.1 ("xl/workbook.xml", .rawBytes "wb") (by decide)

/- ──────────────────────────────────────────────────────────────────────
   Claim C5 — untouched parts round-trip byte-identically.
   ────────────────────────────────────────────────────────────────────── -/

lemma repack_mem_untouched {γ : Type} (items : List (String × γ)) (sp : String)
    (ns : γ) (pts : List (String × γ)) (nw : γ) (f : γ → γ) (name : String) (data : γ)
    (hmem : (name, data) ∈ items)
    (h1 : name ≠ sp) (h2 : name ≠ "xl/workbook.xml") (h3 : name ≠ "[Content_Types].xml")
    (h4 : name ≠ "xl/calcChain.xml") (h5 : pts.lookup name = none) :
    (name, data) ∈ repack items sp ns pts nw f := by
  simp only [repack, List.mem_filterMap]
  refine ⟨(name, data), hmem, ?_⟩
  simp only
  rw [if_neg h4, if_neg h1, h5]
  simp only
  rw [if_neg h2, if_neg h3]

/-- C5: every archive member that is not the sheet part, not a (successfully
re-patched) attached table part, not `xl/workbook.xml`, not
`[Content_Types].xml`, and not the dropped `xl/calcChain.xml` appears in the
repacked output with identical content. -/
theorem untouched_parts_identical {γ : Type} (items : List (String × γ)) (sp : String)
    (ns : γ) (pts : List (String × γ)) (nw : γ) (f : γ → γ) (name : String) (data : γ)
    (hmem : (name, data) ∈ items)
    (h1 : name ≠ sp) (h2 : name ≠ "xl/workbook.xml") (h3 : name ≠ "[Content_Types].xml")
    (h4 : name ≠ "xl/calcChain.xml") (h5 : pts.lookup name = none) :
    (name, data) ∈ repack items sp ns pts nw f :=
  repack_mem_untouched items sp ns pts nw f name data hmem h1 h2 h3 h4 h5

theorem untouched_parts_identical_witness :
    ("xl/styles.xml", "STYLES") ∈
      repack [("xl/styles.xml", "STYLES"), ("xl/worksheets/sheet1.xml", "SHEET")]
        "xl/worksheets/sheet1.xml" "NEWSHEET" [] "NEWWB" id :=
  untouched_parts_identical _ _ _ _ _ _ "xl/styles.xml" "STYLES" (by decide)
    (by decide) (by decide) (by decide) (by decide) rfl

/- ──────────────────────────────────────────────────────────────────────
   Claim C9 — abort on unresolvable sheet; best-effort on malformed
   attached objects.
   ────────────────────────────────────────────────────────────────────── -/

lemma patchedTablesOf_lookup_none (items : List (String × PartC))
    (tableInfos : List (String × TableInfo)) (headerRow lastRow : Int)
    (tp : String) (s : String) (hraw : readPart items tp = some (.rawBytes s)) :
    (patchedTablesOf items tableInfos headerRow lastRow).lookup tp = none := by
  induction tableInfos with
  | nil => rfl
  | cons x xs ih =>
    rcases hx : readPart items x.1 with - | p
    · simp only [patchedTablesOf, List.filterMap_cons, hx]
      exact ih
    · rcases p with rows | rows | t | ch | s' <;>
        simp only [patchedTablesOf, List.filterMap_cons, hx] <;>
        try exact ih
      have hne : tp ≠ x.1 := by
        intro hcontra
        rw [hcontra] at hraw
        rw [hraw] at hx
        simp only [Option.some.injEq] at hx
        exact PartC.noConfusion hx
      have hbeq : (tp == x.1) = false := beq_eq_false_iff_ne.mpr hne
      simp only [List.lookup, hbeq]
      exact ih

/-- C9: `fast_patch_template` aborts with a descriptive error and produces no
output when the named sheet has no entry in the workbook descriptor or its
relationship id has no resolvable target, while a parse failure of an
individual attached part only skips that object: with the sheet resolvable,
the patch completes, and any member holding unparseable bytes — in
particular an attached table part that fails to parse — passes through
unpatched. -/
theorem patch_failure_semantics (sheets : List (String × Option String))
    (rels : List (String × String)) (sheetName : String)
    (items : List (String × PartC)) (tablePaths : List String)
    (headerRow startRow usedCols : Int) (block : List (List String)) :
    (∀ e, findSheetPartPath sheets rels sheetName = Except.error e →
      fastPatchTemplate sheets rels sheetName items tablePaths headerRow startRow
        usedCols block = Except.error e) ∧
    (sheets.find? (fun p => p.1 == sheetName) = none →
      ∃ e, findSheetPartPath sheets rels sheetName = Except.error e) ∧
    (∀ nm rid, sheets.find? (fun p => p.1 == sheetName) = some (nm, some rid) →
      rels.find? (fun q => q.1 == rid) = none →
      ∃ e, findSheetPartPath sheets rels sheetName = Except.error e) ∧
    (∀ sp rows w, findSheetPartPath sheets rels sheetName = Except.ok sp →
      readPart items sp = some (.sheetPart rows) →
      readPart items "xl/workbook.xml" = some w →
      ∃ out, fastPatchTemplate sheets rels sheetName items tablePaths headerRow startRow
          usedCols block = Except.ok out ∧
        ∀ tp s, (tp, PartC.rawBytes s) ∈ items →
          readPart items tp = some (.rawBytes s) →
          tp ≠ sp → tp ≠ "xl/workbook.xml" → tp ≠ "[Content_Types].xml" →
          tp ≠ "xl/calcChain.xml" → (tp, PartC.rawBytes s) ∈ out) := by
  refine ⟨?_, ?_, ?_, ?_⟩
  · intro e he
    simp only [fastPatchTemplate, bind, Except.bind, he]
  · intro hnone
    refine ⟨"Sheet " ++ sheetName ++ " not found in workbook.xml", ?_⟩
    simp only [findSheetPartPath, hnone]
  · intro nm rid hsome hrels
    simp only [findSheetPartPath, hsome]
    by_cases hr : rid = ""
    · exact ⟨_, by rw [if_pos hr]⟩
    · rw [if_neg hr, hrels]
      exact ⟨_, rfl⟩
  · intro sp rows w hfind hsheet hwb
    refine ⟨repack items sp
        (.sheetDataOut (patchSheetData rows startRow
          (finalColsCompute usedCols
            ((tableInfosOf items tablePaths).map (fun x => x.2.width))) block))
        (patchedTablesOf items (tableInfosOf items tablePaths) headerRow
          (lastRowBound headerRow startRow block.length))
        (clampDefinedNamesPart w) stripCTPart, ?_, ?_⟩
    · simp only [fastPatchTemplate, bind, Except.bind, pure, Except.pure, hfind, hsheet,
        hwb]
    · intro tp s hmem hraw htp1 htp2 htp3 htp4
      exact repack_mem_untouched items sp _ _ _ stripCTPart tp (PartC.rawBytes s) hmem
        htp1 htp2 htp3 htp4
        (patchedTablesOf_lookup_none items (tableInfosOf items tablePaths) headerRow
          (lastRowBound headerRow startRow block.length) tp s hraw)

theorem patch_failure_semantics_witness :
    ∃ e, findSheetPartPath [("Other", some "rId1")]
      [("rId1", "worksheets/sheet1.xml")] "Template" = Except.error e :=
  (patch_failure_semantics [("Other", some "rId1")] [("rId1", "worksheets/sheet1.xml")]
    "Template" [] [] 2 4 1 []).2.1 (by decide)

/- ──────────────────────────────────────────────────────────────────────
   Claim C7 — the alias walk is first-match-wins.
   ────────────────────────────────────────────────────────────────────── -/

lemma resolveAliases_skip {σ : Type} (seriesByAlias : String → Option σ)
    (l1 l2 : List String) (a : String)
    (hl1 : ∀ b ∈ l1, seriesByAlias (normS b) = none) :
    resolveAliases seriesByAlias (l1 ++ a :: l2) =
      match seriesByAlias (normS a) with
      | some s => some s
      | none => resolveAliases seriesByAlias l2 := by
  induction l1 with
  | nil => rfl
  | cons b bs ih =>
    have hb := hl1 b (List.mem_cons_self b bs)
    simp only [List.cons_append, resolveAliases, hb]
    exact ih (fun c hc => hl1 c (List.mem_cons_of_mem b hc))

/-- C7: for a template column with effective label `eff`, the resolver walks
`mapping_aliases.get(norm(eff), [eff])` in order and resolves to the source
column of the first alias whose normalized form matches a source header
(first-match-wins): if every alias before `a` has no source column and `a`
has one, the column resolves to the source column of `a`. -/
theorem first_match_wins {σ : Type} (mappingAliases : String → Option (List String))
    (seriesByAlias : String → Option σ) (eff : String) (l1 l2 : List String) (a : String)
    (hmap : mappingAliases (normS eff) = some (l1 ++ a :: l2))
    (hl1 : ∀ b ∈ l1, seriesByAlias (normS b) = none)
    (ha : (seriesByAlias (normS a)).isSome) :
    resolveColumn mappingAliases seriesByAlias eff = seriesByAlias (normS a) := by
  rcases Option.isSome_iff_exists.mp ha with ⟨s, hs⟩
  simp only [resolveColumn, hmap, Option.getD_some]
  rw [resolveAliases_skip seriesByAlias l1 l2 a hl1, hs]

theorem first_match_wins_witness :
    resolveColumn (fun k => if k = "x" then some ["A", "B"] else none)
      (fun k => if k = "a" then some (0 : Nat) else if k = "b" then some 1 else none)
      "X" = some 0 := by
  have h := first_match_wins (σ := Nat)
    (fun k => if k = "x" then some ["A", "B"] else none)
    (fun k => if k = "a" then some (0 : Nat) else if k = "b" then some 1 else none)
    "X" [] ["B"] "A" (by decide) (by simp) (by decide)
  rw [h]
  decide

/- ──────────────────────────────────────────────────────────────────────
   Claim C8 — `norm` is idempotent.  Strategy: every output of the
   normalization pipeline is `Canonical`, and on `Canonical` input every
   pipeline stage is the identity.
   ────────────────────────────────────────────────────────────────────── -/

lemma isLowerAlnum_not_space {c : Char} (h : isLowerAlnum c = true) :
    pyIsSpace c = false := by
  simp only [isLowerAlnum, Bool.or_eq_true, decide_eq_true_eq] at h
  simp only [pyIsSpace, Bool.or_eq_false_iff, beq_eq_false_iff_ne, ne_eq,
    decide_eq_false_iff_not]
  omega

lemma goodChar_space_iff {c : Char} (h : GoodChar c) :
    pyIsSpace c = true ↔ c = ' ' := by
  rcases h with h | rfl
  · simp [isLowerAlnum_not_space h]
    intro hcontra
    rw [hcontra] at h
    exact absurd h (by decide)
  · simp
    decide

lemma head?_mem {c : Char} {cs : List Char} (h : cs.head? = some c) : c ∈ cs := by
  cases cs with
  | nil => cases h
  | cons a t =>
    simp only [List.head?_cons, Option.some.injEq] at h
    rw [← h]
    exact List.mem_cons_self a t

lemma getLast?_mem {c : Char} {cs : List Char} (h : cs.getLast? = some c) : c ∈ cs := by
  have : cs.reverse.head? = some c := by rw [List.head?_reverse]; exact h
  have := head?_mem this
  exact List.mem_reverse.mp this

lemma dropWhile_eq_self_of_head {p : Char → Bool} {cs : List Char}
    (h : ∀ c, cs.head? = some c → p c = false) : cs.dropWhile p = cs := by
  cases cs with
  | nil => rfl
  | cons a t => simp [List.dropWhile_cons, h a rfl]

lemma head?_dropWhile {p : Char → Bool} {cs : List Char} {c : Char}
    (h : (cs.dropWhile p).head? = some c) : p c = false := by
  induction cs with
  | nil => cases h
  | cons a t ih =>
    rw [List.dropWhile_cons] at h
    split at h
    · exact ih h
    · simp only [List.head?_cons, Option.some.injEq] at h
      rw [← h]
      simpa using ‹¬p a = true›

lemma mem_dropWhile {p : Char → Bool} {cs : List Char} {c : Char}
    (h : c ∈ cs.dropWhile p) : c ∈ cs := by
  induction cs with
  | nil => cases h
  | cons a t ih =>
    rw [List.dropWhile_cons] at h
    split at h
    · exact List.mem_cons_of_mem a (ih h)
    · exact h

lemma chain'_dropWhile {R : Char → Char → Prop} {p : Char → Bool} {cs : List Char}
    (h : cs.Chain' R) : (cs.dropWhile p).Chain' R := by
  induction cs with
  | nil => exact h
  | cons a t ih =>
    rw [List.dropWhile_cons]
    split
    · exact ih h.tail
    · exact h

lemma getLast?_dropWhile_ne_nil {p : Char → Bool} {cs : List Char}
    (h : cs.dropWhile p ≠ []) : (cs.dropWhile p).getLast? = cs.getLast? := by
  induction cs with
  | nil => exact absurd rfl h
  | cons a t ih =>
    rw [List.dropWhile_cons]
    rw [List.dropWhile_cons] at h
    split
    · rename_i hpa
      rw [if_pos hpa] at h
      have ht : t ≠ [] := by
        intro hcontra
        rw [hcontra] at h
        exact h rfl
      rw [ih h, List.getLast?_cons]
      have : t.getLast?.isSome := List.getLast?_isSome.mpr ht
      rcases Option.isSome_iff_exists.mp this with ⟨x, hx⟩
      rw [hx]
      rfl
    · rfl

lemma mem_pyStrip {c : Char} {cs : List Char} (h : c ∈ pyStrip cs) : c ∈ cs := by
  simp only [pyStrip, List.mem_reverse] at h
  exact mem_dropWhile (List.mem_reverse.mp (mem_dropWhile h))

lemma head?_pyStrip {cs : List Char} {c : Char}
    (h : (pyStrip cs).head? = some c) : pyIsSpace c = false := by
  simp only [pyStrip] at h
  rw [List.head?_reverse] at h
  rcases hX : (cs.dropWhile pyIsSpace).reverse.dropWhile pyIsSpace with - | ⟨x, t⟩
  · rw [hX] at h; cases h
  · have hne : (cs.dropWhile pyIsSpace).reverse.dropWhile pyIsSpace ≠ [] := by
      rw [hX]; exact List.cons_ne_nil x t
    rw [getLast?_dropWhile_ne_nil hne, List.getLast?_reverse] at h
    exact head?_dropWhile h

lemma getLast?_pyStrip {cs : List Char} {c : Char}
    (h : (pyStrip cs).getLast? = some c) : pyIsSpace c = false := by
  simp only [pyStrip] at h
  rw [List.getLast?_reverse] at h
  exact head?_dropWhile h

lemma chain'_pyStrip {R : Char → Char → Prop} (hsymm : ∀ a b, R a b → R b a)
    {cs : List Char} (h : cs.Chain' R) : (pyStrip cs).Chain' R := by
  have h1 : (cs.dropWhile pyIsSpace).Chain' R := chain'_dropWhile h
  have h2 : ((cs.dropWhile pyIsSpace).reverse).Chain' R := by
    rw [List.chain'_reverse]
    exact h1.imp (fun a b hab => hsymm a b hab)
  have h3 : ((cs.dropWhile pyIsSpace).reverse.dropWhile pyIsSpace).Chain' R :=
    chain'_dropWhile h2
  rw [pyStrip, List.chain'_reverse]
  exact h3.imp (fun a b hab => hsymm a b hab)

lemma pyStrip_eq_self {cs : List Char} (hgood : ∀ c ∈ cs, GoodChar c)
    (hhead : cs.head? ≠ some ' ') (hlast : cs.getLast? ≠ some ' ') :
    pyStrip cs = cs := by
  have e1 : cs.dropWhile pyIsSpace = cs := by
    apply dropWhile_eq_self_of_head
    intro c hc
    by_contra hcontra
    have hsp : pyIsSpace c = true := by
      cases hps : pyIsSpace c
      · exact absurd hps hcontra
      · rfl
    have := (goodChar_space_iff (hgood c (head?_mem hc))).mp hsp
    rw [this] at hc
    exact hhead hc
  have e2 : cs.reverse.dropWhile pyIsSpace = cs.reverse := by
    apply dropWhile_eq_self_of_head
    intro c hc
    rw [List.head?_reverse] at hc
    by_contra hcontra
    have hsp : pyIsSpace c = true := by
      cases hps : pyIsSpace c
      · exact absurd hps hcontra
      · rfl
    have := (goodChar_space_iff (hgood c (getLast?_mem hc))).mp hsp
    rw [this] at hc
    exact hlast hc
  rw [pyStrip, e1, e2, List.reverse_reverse]

lemma collapseRuns_eq_self {p : Char → Bool} {rep : Char} {cs : List Char}
    (h : ∀ c ∈ cs, p c = false) : ∀ b, collapseRuns p rep b cs = cs := by
  induction cs with
  | nil => intro b; rfl
  | cons a t ih =>
    intro b
    have ha := h a (List.mem_cons_self a t)
    simp only [collapseRuns, ha, Bool.false_eq_true, if_false]
    rw [ih (fun c hc => h c (List.mem_cons_of_mem a hc)) false]

lemma mem_collapseRuns {p : Char → Bool} {rep : Char} {cs : List Char} {b : Bool}
    {c : Char} (h : c ∈ collapseRuns p rep b cs) :
    c = rep ∨ (c ∈ cs ∧ p c = false) := by
  induction cs generalizing b with
  | nil => cases h
  | cons a t ih =>
    cases hpa : p a with
    | false =>
      simp only [collapseRuns, hpa, Bool.false_eq_true, if_false] at h
      rcases List.mem_cons.mp h with heq | h'
      · subst heq
        exact Or.inr ⟨List.mem_cons_self _ _, hpa⟩
      · rcases ih h' with h'' | ⟨hm, hp⟩
        · exact Or.inl h''
        · exact Or.inr ⟨List.mem_cons_of_mem a hm, hp⟩
    | true =>
      cases b with
      | false =>
        simp only [collapseRuns, hpa, if_true] at h
        rcases List.mem_cons.mp h with heq | h'
        · exact Or.inl heq
        · rcases ih h' with h'' | ⟨hm, hp⟩
          · exact Or.inl h''
          · exact Or.inr ⟨List.mem_cons_of_mem a hm, hp⟩
      | true =>
        simp only [collapseRuns, hpa, if_true] at h
        rcases ih h with h'' | ⟨hm, hp⟩
        · exact Or.inl h''
        · exact Or.inr ⟨List.mem_cons_of_mem a hm, hp⟩

lemma head?_collapseRuns_true {p : Char → Bool} {rep : Char} {cs : List Char} {d : Char}
    (h : (collapseRuns p rep true cs).head? = some d) : p d = false := by
  induction cs with
  | nil => cases h
  | cons a t ih =>
    cases hpa : p a with
    | false =>
      simp only [collapseRuns, hpa, Bool.false_eq_true, if_false, List.head?_cons,
        Option.some.injEq] at h
      rw [← h]
      exact hpa
    | true =>
      simp only [collapseRuns, hpa, if_true] at h
      exact ih h

lemma chain'_collapseRuns (p : Char → Bool) (rep : Char) (cs : List Char) :
    ∀ b, (collapseRuns p rep b cs).Chain' (fun a c => ¬(p a = true ∧ p c = true)) := by
  induction cs with
  | nil => intro b; exact List.chain'_nil
  | cons a t ih =>
    intro b
    cases hpa : p a with
    | false =>
      simp only [collapseRuns, hpa, Bool.false_eq_true, if_false]
      refine List.chain'_cons'.mpr ⟨?_, ih false⟩
      intro y _
      rintro ⟨h1, -⟩
      rw [hpa] at h1
      cases h1
    | true =>
      cases b with
      | false =>
        simp only [collapseRuns, hpa, if_true]
        refine List.chain'_cons'.mpr ⟨?_, ih true⟩
        intro y hy
        rintro ⟨-, h2⟩
        rw [head?_collapseRuns_true hy] at h2
        cases h2
      | true =>
        simp only [collapseRuns, hpa, if_true]
        exact ih true

lemma collapseRuns_space_eq_self {cs : List Char} (hgood : ∀ c ∈ cs, GoodChar c)
    (hnd : NoDoubleSpace cs) :
    collapseRuns pyIsSpace ' ' false cs = cs ∧
      (cs.head? ≠ some ' ' → collapseRuns pyIsSpace ' ' true cs = cs) := by
  induction cs with
  | nil => exact ⟨rfl, fun _ => rfl⟩
  | cons a t ih =>
    have hgt : ∀ c ∈ t, GoodChar c := fun c hc => hgood c (List.mem_cons_of_mem a hc)
    have hndt : NoDoubleSpace t := hnd.tail
    have iht := ih hgt hndt
    cases hga : pyIsSpace a with
    | false =>
      constructor
      · simp only [collapseRuns, hga, Bool.false_eq_true, if_false]
        rw [iht.1]
      · intro _
        simp only [collapseRuns, hga, Bool.false_eq_true, if_false]
        rw [iht.1]
    | true =>
      have haspace : a = ' ' := (goodChar_space_iff (hgood a (List.mem_cons_self a t))).mp hga
      constructor
      · simp only [collapseRuns, hga, if_true, Bool.false_eq_true, if_false]
        have hthead : t.head? ≠ some ' ' := by
          intro hh
          rcases t with - | ⟨d, t'⟩
          · cases hh
          · simp only [List.head?_cons, Option.some.injEq] at hh
            have := List.chain'_cons'.mp hnd
            exact this.1 d rfl ⟨haspace, hh⟩
        rw [iht.2 hthead, haspace]
      · intro hh
        rw [List.head?_cons, haspace] at hh
        exact absurd rfl hh

lemma matchLocaleSuffix_dash {cs : List Char} (h : matchLocaleSuffix cs = true) :
    '-' ∈ cs := by
  rcases hd : cs.dropWhile pyIsSpace with - | ⟨c, t1⟩
  · rw [matchLocaleSuffix, hd] at h
    cases h
  · rw [matchLocaleSuffix, hd, Bool.and_eq_true] at h
    have : c = '-' := by simpa using h.1
    rw [← this]
    apply mem_dropWhile (p := pyIsSpace)
    rw [hd]
    exact List.mem_cons_self c t1

lemma applyLocaleSub_eq_self {cs : List Char} (h : '-' ∉ cs) :
    applyLocaleSub cs = cs := by
  induction cs with
  | nil => rfl
  | cons a t ih =>
    have hm : matchLocaleSuffix (a :: t) = false := by
      cases hms : matchLocaleSuffix (a :: t)
      · rfl
      · exact absurd (matchLocaleSuffix_dash hms) h
    simp only [applyLocaleSub, hm, Bool.false_eq_true, if_false]
    rw [ih (fun hc => h (List.mem_cons_of_mem a hc))]

lemma map_eq_self_of {f : Char → Char} {cs : List Char} (h : ∀ c ∈ cs, f c = c) :
    cs.map f = cs := by
  induction cs with
  | nil => rfl
  | cons a t ih =>
    rw [List.map_cons, h a (List.mem_cons_self a t),
      ih (fun c hc => h c (List.mem_cons_of_mem a hc))]

lemma pyToLower_good {c : Char} (h : GoodChar c) : pyToLower c = c := by
  rcases h with h | rfl
  · simp only [isLowerAlnum, Bool.or_eq_true, decide_eq_true_eq] at h
    rw [pyToLower, if_neg]
    omega
  · decide

lemma dashFix_good {c : Char} (h : GoodChar c) : dashFix c = c := by
  rcases h with h | rfl
  · rw [dashFix, if_neg]
    rintro (rfl | rfl | rfl) <;> exact absurd h (by decide)
  · decide

lemma sepChar_good {c : Char} (h : GoodChar c) : sepChar c = false := by
  rcases h with h | rfl
  · simp only [sepChar, Bool.or_eq_false_iff, beq_eq_false_iff_ne, ne_eq]
    refine ⟨⟨⟨⟨?_, ?_⟩, ?_⟩, ?_⟩, ?_⟩ <;> rintro rfl <;> exact absurd h (by decide)
  · decide

lemma nonAlnumSpace_good {c : Char} (h : GoodChar c) : nonAlnumSpace c = false := by
  rcases h with h | rfl
  · simp [nonAlnumSpace, h]
  · decide

/-- Every normalization output is canonical. -/
lemma canonical_normChars (cs : List Char) : Canonical (normChars cs) := by
  rw [normChars]
  set x4 := collapseRuns sepChar ' ' false
    ((applyLocaleSub ((pyStrip cs).map pyToLower)).map dashFix) with hx4
  set x5 := collapseRuns nonAlnumSpace ' ' false x4 with hx5
  set y := collapseRuns pyIsSpace ' ' false x5 with hy
  have hmem : ∀ c ∈ pyStrip y, GoodChar c := by
    intro c hc
    have hcy := mem_pyStrip hc
    rcases mem_collapseRuns hcy with rfl | ⟨hx5m, hws⟩
    · exact Or.inr rfl
    · rcases mem_collapseRuns hx5m with rfl | ⟨-, hnas⟩
      · rw [show pyIsSpace ' ' = true from by decide] at hws
        cases hws
      · simp only [nonAlnumSpace, Bool.not_eq_false', Bool.or_eq_true] at hnas
        rcases hnas with h' | h'
        · exact Or.inl h'
        · rw [h'] at hws
          cases hws
  have hchain : NoDoubleSpace (pyStrip y) := by
    have h1 := chain'_collapseRuns pyIsSpace ' ' x5 false
    have h2 : NoDoubleSpace y := by
      refine h1.imp ?_
      rintro a b hab ⟨rfl, rfl⟩
      exact hab ⟨by decide, by decide⟩
    exact chain'_pyStrip (fun a b hab ⟨h3, h4⟩ => hab ⟨h4, h3⟩) h2
  refine ⟨hmem, hchain, ?_, ?_⟩
  · intro hh
    have := head?_pyStrip hh
    rw [show pyIsSpace ' ' = true from by decide] at this
    cases this
  · intro hh
    have := getLast?_pyStrip hh
    rw [show pyIsSpace ' ' = true from by decide] at this
    cases this

/-- On canonical input every pipeline stage is the identity. -/
lemma normChars_canonical_id {cs : List Char} (h : Canonical cs) : normChars cs = cs := by
  obtain ⟨hgood, hnd, hhead, hlast⟩ := h
  have e1 : pyStrip cs = cs := pyStrip_eq_self hgood hhead hlast
  have e2 : cs.map pyToLower = cs := map_eq_self_of (fun c hc => pyToLower_good (hgood c hc))
  have e3 : applyLocaleSub cs = cs := by
    apply applyLocaleSub_eq_self
    intro hdash
    rcases hgood '-' hdash with h' | h'
    · exact absurd h' (by decide)
    · exact absurd h' (by decide)
  have e4 : cs.map dashFix = cs := map_eq_self_of (fun c hc => dashFix_good (hgood c hc))
  have e5 : collapseRuns sepChar ' ' false cs = cs :=
    collapseRuns_eq_self (fun c hc => sepChar_good (hgood c hc)) false
  have e6 : collapseRuns nonAlnumSpace ' ' false cs = cs :=
    collapseRuns_eq_self (fun c hc => nonAlnumSpace_good (hgood c hc)) false
  have e7 : collapseRuns pyIsSpace ' ' false cs = cs :=
    (collapseRuns_space_eq_self hgood hnd).1
  rw [normChars, e1, e2, e3, e4, e5, e6, e7]
  exact pyStrip_eq_self hgood hhead hlast

/-- C8: the header normalizer is idempotent, and maps absent (`None`) and
empty input to the empty string. -/
theorem norm_idempotent :
    (∀ s : String, normS (normS s) = normS s) ∧ norm none = "" ∧ normS "" = "" := by
  refine ⟨?_, rfl, rfl⟩
  intro s
  show String.mk (normChars (String.mk (normChars s.data)).data) = String.mk (normChars s.data)
  have hdata : (String.mk (normChars s.data)).data = normChars s.data := rfl
  rw [hdata, normChars_canonical_id (canonical_normChars s.data)]

end Masterfile
